import Mathlib

/-!
Verification of the pubky-messenger core protocol (crypto.rs, message.rs,
client.rs) against its natural-language specification.

The shallow embedding translates the repository's Rust functions into Lean.
External library primitives (the dalek curve operations, SHA-512, blake3,
the pubky secretbox, JSON serialization, the network store) are not part of
this repository's sources; they are modelled from the specification at the
level of the interface contracts the repository's code relies on, and each
such model carries a doc comment saying so.  All repository-level logic
(clamping, key derivation flow, envelope construction/decryption/
verification, message listing/decoding/sorting, batched delete and retry)
is translated directly from the source.
-/

namespace PubkyMessenger

/-! ## Modelled external primitives: curve group and hashes -/

/-- Modelled from the spec: the order of the prime-order subgroup of
Curve25519 / edwards25519 (the group both the signing keys and the
Diffie-Hellman exchange live in). -/
def L : Nat := 7237005577332262213973186563042994240857116359379907606001950938285454250989

/-- Modelled from the spec: honest points of the prime-order subgroup are
represented by their discrete logarithm with respect to the base point.
A compressed 32-byte public-key encoding either decompresses to such a
point or is malformed; `junk` models the byte strings that do not
decompress to a valid curve point. -/
inductive PubBytes where
  | point (dlog : Nat)
  | junk (id : Nat)
deriving DecidableEq, Repr

/-- Modelled from the spec: decompression of a compressed Edwards point,
failing exactly on malformed encodings. -/
def decompressEdwards : PubBytes → Option Nat
  | .point d => some d
  | .junk _ => none

/-- Modelled from the spec: the Montgomery u-coordinate of the point with
discrete logarithm `d`.  The u-coordinate identifies a point with its
negation, so the model takes the canonical representative of the pair
of discrete logarithms that share a u-coordinate. -/
def canonMont (x : Nat) : Nat := min (x % L) ((L - x % L) % L)

/-- Modelled from the spec: the X25519 Diffie-Hellman scalar
multiplication on Montgomery u-coordinates, with the scalar given as
32 little-endian bytes. -/
def natOfLeBytes (l : List Nat) : Nat := l.foldr (fun b acc => b + 256 * acc) 0

/-- Modelled from the spec: a 512-bit cryptographic hash, producing 64
bytes from an arbitrary byte string.  Only its type (a fixed-width byte
output) matters to the claims; the mixing itself is a stand-in. -/
def sha512Model (l : List Nat) : List Nat :=
  (l.map (fun b => (b + 101) % 256) ++ List.replicate 64 7).take 64

/-! ## crypto.rs, translated from the source -/

/-- Translated from crypto.rs `ed25519_public_to_x25519`: decompress the
compressed Edwards point and map it to its Montgomery form; `none` when
the bytes do not decompress. -/
def ed25519_public_to_x25519 (ed_pub : PubBytes) : Option Nat :=
  match decompressEdwards ed_pub with
  | none => none
  | some d => some (canonMont d)

/-- Translated from crypto.rs `ed25519_secret_to_x25519`: SHA-512 the
signing secret, take the low 32 bytes, then clamp
(`x[0] &= 248; x[31] &= 127; x[31] |= 64`). -/
def ed25519_secret_to_x25519 (ed_secret : List Nat) : List Nat :=
  let hash := sha512Model ed_secret
  let x := hash.take 32
  let x1 := x.set 0 ((x.getD 0 0) &&& 248)
  x1.set 31 (((x1.getD 31 0) &&& 127) ||| 64)

/-- A signing keypair, identified by its 32-byte secret seed. -/
structure Keypair where
  seed : List Nat
deriving DecidableEq, Repr

/-- Modelled from the spec: the ed25519 signing scalar of a keypair.  Per
RFC 8032 it is exactly the clamped low half of SHA-512 of the seed,
i.e. the same bytes `ed25519_secret_to_x25519` produces, read as a
little-endian integer. -/
def Keypair.scalar (kp : Keypair) : Nat := natOfLeBytes (ed25519_secret_to_x25519 kp.seed)

/-- Modelled from the spec: the public key is the compressed encoding of
scalar-times-base-point, whose discrete logarithm is the scalar mod the
subgroup order. -/
def Keypair.public_key (kp : Keypair) : PubBytes := .point (kp.scalar % L)

/-- Modelled from the spec: every `PubBytes` encodes exactly 32 bytes, so
the source's length guard always sees 32. -/
def pubBytesLen (_ : PubBytes) : Nat := 32

/-- Translated from crypto.rs `generate_shared_secret`: convert own secret
and the peer public key to X25519 form (propagating the conversion
failure), run the Diffie-Hellman exchange, and return the encoded
32-byte shared value.  The hex encoding of the shared bytes is an
injective renaming, carried in the model as the numeric value itself. -/
def generate_shared_secret (kp : Keypair) (other_pubkey : PubBytes) : Except String Nat :=
  let x25519_secret := ed25519_secret_to_x25519 kp.seed
  if pubBytesLen other_pubkey ≠ 32 then .error "Invalid public key length"
  else
    match ed25519_public_to_x25519 other_pubkey with
    | none => .error "Failed to convert pubkey to X25519"
    | some other_x25519 => .ok (canonMont (natOfLeBytes x25519_secret * other_x25519))

/-- Modelled from the spec: the blake3 hash of the encoded shared secret,
rendered as its hex digest string.  The mixing is a stand-in; only
determinism matters to the claims. -/
def blake3Hex (n : Nat) : String := String.mk (Nat.toDigits 16 ((2654435761 * n + 40503) % 2 ^ 256))

/-- Translated from crypto.rs `generate_conversation_path`: hash the shared
secret and embed the hex digest into the fixed path template. -/
def generate_conversation_path (kp : Keypair) (other_pubkey : PubBytes) : Except String String :=
  match generate_shared_secret kp other_pubkey with
  | .error e => .error e
  | .ok shared => .ok ("/pub/private_messages/" ++ blake3Hex shared ++ "/")

/-! ## Arithmetic of the canonical Montgomery representative -/

theorem L_pos : 0 < L := by decide

theorem canonMont_congr {x y : Nat} (h : x % L = y % L) : canonMont x = canonMont y := by
  simp only [canonMont, h]

theorem mod_mod_L (x : Nat) : x % L % L = x % L := Nat.mod_mod_of_dvd _ dvd_rfl

theorem canonMont_neg (x : Nat) : canonMont (L - x % L) = canonMont x := by
  have hx : x % L < L := Nat.mod_lt _ L_pos
  rcases Nat.eq_zero_or_pos (x % L) with h0 | hpos
  · simp only [canonMont, h0, Nat.sub_zero, Nat.mod_self, Nat.min_self]
  · have h1 : (L - x % L) % L = L - x % L := Nat.mod_eq_of_lt (by omega)
    simp only [canonMont, h1]
    have h2 : L - (L - x % L) = x % L := by omega
    rw [h2, mod_mod_L]
    exact Nat.min_comm _ _

theorem canonMont_cases (b : Nat) : canonMont b = b % L ∨ canonMont b = (L - b % L) % L := by
  simp only [canonMont, Nat.min_def]
  split
  · exact Or.inl rfl
  · exact Or.inr rfl

theorem mul_neg_mod (a s : Nat) (hs : s < L) :
    (a * ((L - s) % L)) % L = (L - (a * s) % L) % L := by
  rcases Nat.eq_zero_or_pos s with h0 | hpos
  · subst h0
    simp [Nat.mod_self]
  · have h1 : (L - s) % L = L - s := Nat.mod_eq_of_lt (by omega)
    rw [h1]
    have key : a * (L - s) + a * s = a * L := by
      rw [← Nat.mul_add]
      congr 1
      omega
    have hz : (a * L) % L = 0 := Nat.mul_mod_left a L
    simp only [L] at key hz hs hpos ⊢
    omega

theorem mul_mod_absorb (a b : Nat) : (a * (b % L)) % L = (a * b) % L := by
  conv_lhs => rw [Nat.mul_mod]
  conv_rhs => rw [Nat.mul_mod]
  rw [mod_mod_L]

theorem canonMont_mul_canonMont (a b : Nat) :
    canonMont (a * canonMont b) = canonMont (a * b) := by
  rcases canonMont_cases b with h | h
  · rw [h]
    exact canonMont_congr (mul_mod_absorb a b)
  · rw [h]
    have h1 : (a * ((L - b % L) % L)) % L = (L - (a * (b % L)) % L) % L :=
      mul_neg_mod a (b % L) (Nat.mod_lt _ L_pos)
    have h2 : canonMont (a * ((L - b % L) % L)) = canonMont (L - (a * (b % L)) % L) :=
      canonMont_congr h1
    rw [h2, canonMont_neg]
    exact canonMont_congr (mul_mod_absorb a b)

theorem dh_comm (a b : Nat) :
    canonMont (a * canonMont (b % L)) = canonMont (b * canonMont (a % L)) := by
  have hb : canonMont (b % L) = canonMont b := canonMont_congr (mod_mod_L b)
  have ha : canonMont (a % L) = canonMont a := canonMont_congr (mod_mod_L a)
  rw [hb, ha, canonMont_mul_canonMont, canonMont_mul_canonMont, Nat.mul_comm]

/-- Shared-secret symmetry at the level of the embedded source function. -/
theorem generate_shared_secret_comm (ka kb : Keypair) :
    generate_shared_secret ka kb.public_key = generate_shared_secret kb ka.public_key := by
  simp only [generate_shared_secret, Keypair.public_key, pubBytesLen,
    ed25519_public_to_x25519, decompressEdwards, Keypair.scalar]
  exact congrArg Except.ok (dh_comm _ _)

/-! ## message.rs, translated from the source -/

/-- The eight big-endian bytes of a 64-bit timestamp
(`timestamp.to_be_bytes()`). -/
def beBytes8 (t : Nat) : List Nat :=
  [t / 2 ^ 56 % 256, t / 2 ^ 48 % 256, t / 2 ^ 40 % 256, t / 2 ^ 32 % 256,
   t / 2 ^ 24 % 256, t / 2 ^ 16 % 256, t / 2 ^ 8 % 256, t % 256]

/-- The raw 32 compressed bytes of a public key (`PublicKey::as_bytes`),
as an injective byte-list encoding of the model. -/
def pubkeyBytes : PubBytes → List Nat
  | .point d => [1, d]
  | .junk n => [0, n]

/-- Modelled from the spec: pkarr's textual (z-base-32) rendering of the
public key (`PublicKey::to_string`), carried as the byte list of the
text; the leading 9 tags the textual form. -/
def pubkeyString (p : PubBytes) : List Nat := 9 :: pubkeyBytes p

/-- Modelled from the spec: `PublicKey::try_from` on a string: parse the
text back to the 32 bytes and validate; fails with an invalid-key error
unless the text renders a valid curve point. -/
def tryFromPubkeyString : List Nat → Option PubBytes
  | [9, 1, d] => some (.point d)
  | _ => none

/-- Modelled from the spec: the blake3 message digest over the
concatenated hasher updates.  The mixing is a stand-in; the claims only
need it to be a function of its input. -/
def blake3Digest (l : List Nat) : List Nat :=
  [l.length % 256, l.foldr (fun b a => b + 257 * a) 0 % 2 ^ 256]

/-- Modelled from the spec: the authentication core of an ed25519
signature over `msg` by the key whose public discrete logarithm is
`d`. -/
def sigMac (d : Nat) (msg : List Nat) : Nat :=
  d + msg.length + msg.foldr (fun b a => b + 257 * a) 0

/-- Modelled from the spec: the 64 signature bytes produced for digest
`msg` by the key with public discrete logarithm `d`. -/
def mkSig (d : Nat) (msg : List Nat) : List Nat :=
  d :: sigMac d msg :: List.replicate 62 0

/-- Modelled from the spec: `Keypair::sign` — ed25519 signing under the
keypair's signing scalar. -/
def signModel (kp : Keypair) (msg : List Nat) : List Nat := mkSig (kp.scalar % L) msg

/-- Modelled from the spec: `PublicKey::verify` — true exactly when the
64 bytes are the signature of `msg` under the key. -/
def sigVerify (pk : PubBytes) (msg sig : List Nat) : Bool :=
  match pk with
  | .point d => decide (sig = mkSig d msg)
  | .junk _ => false

/-- Modelled from the spec: the authentication tag of the secretbox. -/
def macTag (k : Nat) (m : List Nat) : Nat :=
  k + m.length + 31 + m.foldr (fun b a => b + 263 * a) 0

/-- Modelled from the spec: `pubky_common::crypto::encrypt`, an
authenticated symmetric encryption under the 32-byte key. -/
def encrypt (m : List Nat) (k : Nat) : List Nat := macTag k m :: m

/-- Modelled from the spec: `pubky_common::crypto::decrypt`; fails on tag
mismatch or malformed ciphertext. -/
def decrypt (c : List Nat) (k : Nat) : Except String (List Nat) :=
  match c with
  | [] => .error "Decryption failure"
  | t :: body => if t = macTag k body then .ok body else .error "Decryption failure"

/-- Translated from message.rs `PrivateMessage`: the stored envelope. -/
structure PrivateMessage where
  timestamp : Nat
  encrypted_sender : List Nat
  encrypted_content : List Nat
  signature_bytes : List Nat
deriving DecidableEq, Repr

instance : Inhabited PrivateMessage := ⟨⟨0, [], [], []⟩⟩

/-- Translated from message.rs `PrivateMessage::new`.  The impure
timestamp read (`SystemTime::now`) is passed as an explicit argument;
`hex::decode` of the hex-rendered shared secret is the identity of the
model's numeric shared-secret value.  Plaintext strings are carried as
their byte lists. -/
def PrivateMessage.new (sender_keypair : Keypair) (recipient_pk : PubBytes)
    (content : List Nat) (timestamp : Nat) : Except String PrivateMessage :=
  let message_digest :=
    blake3Digest (content ++ pubkeyBytes sender_keypair.public_key ++ beBytes8 timestamp)
  let signature_bytes := signModel sender_keypair message_digest
  match generate_shared_secret sender_keypair recipient_pk with
  | .error e => .error e
  | .ok encryption_key =>
    let encrypted_content := encrypt content encryption_key
    let sender_string := pubkeyString sender_keypair.public_key
    let encrypted_sender := encrypt sender_string encryption_key
    .ok ⟨timestamp, encrypted_sender, encrypted_content, signature_bytes⟩

/-- Translated from message.rs `PrivateMessage::decrypt_content`.  The
`String::from_utf8` step is the identity here because the model carries
strings as byte lists. -/
def PrivateMessage.decrypt_content (m : PrivateMessage) (receiver_keypair : Keypair)
    (other_participant : PubBytes) : Except String (List Nat) :=
  match generate_shared_secret receiver_keypair other_participant with
  | .error e => .error e
  | .ok encryption_key => decrypt m.encrypted_content encryption_key

/-- Translated from message.rs `PrivateMessage::decrypt_sender`. -/
def PrivateMessage.decrypt_sender (m : PrivateMessage) (receiver_keypair : Keypair)
    (other_participant : PubBytes) : Except String (List Nat) :=
  match generate_shared_secret receiver_keypair other_participant with
  | .error e => .error e
  | .ok encryption_key => decrypt m.encrypted_sender encryption_key

/-- Translated from message.rs `PrivateMessage::verify_signature`: parse
the decrypted sender string as a public key (error when malformed),
recompute the digest from the decrypted content, the parsed key's raw
bytes and the big-endian timestamp, reject signatures that are not 64
bytes with an error, and otherwise return the boolean outcome of the
signature check. -/
def PrivateMessage.verify_signature (m : PrivateMessage)
    (decrypted_content decrypted_sender : List Nat) : Except String Bool :=
  match tryFromPubkeyString decrypted_sender with
  | none => .error "invalid public key"
  | some sender_pk =>
    let message_digest :=
      blake3Digest (decrypted_content ++ pubkeyBytes sender_pk ++ beBytes8 m.timestamp)
    if m.signature_bytes.length ≠ 64 then .error "Invalid signature length"
    else .ok (sigVerify sender_pk message_digest m.signature_bytes)

/-- Translated from message.rs `DecryptedMessage`. -/
structure DecryptedMessage where
  sender : List Nat
  content : List Nat
  timestamp : Nat
  verified : Bool
deriving DecidableEq, Repr

theorem decrypt_encrypt (m : List Nat) (k : Nat) : decrypt (encrypt m k) k = .ok m := by
  simp [decrypt, encrypt]

theorem mkSig_length (d : Nat) (msg : List Nat) : (mkSig d msg).length = 64 := rfl

theorem new_ok (kp : Keypair) (d : Nat) (content : List Nat) (t : Nat) :
    PrivateMessage.new kp (.point d) content t =
      .ok ⟨t, encrypt (pubkeyString kp.public_key) (canonMont (kp.scalar * canonMont d)),
          encrypt content (canonMont (kp.scalar * canonMont d)),
          signModel kp (blake3Digest (content ++ pubkeyBytes kp.public_key ++ beBytes8 t))⟩ :=
  rfl

theorem decrypt_content_of (m : PrivateMessage) (kp : Keypair) (p : PubBytes) (k : Nat)
    (content : List Nat) (hg : generate_shared_secret kp p = .ok k)
    (hc : m.encrypted_content = encrypt content k) :
    m.decrypt_content kp p = .ok content := by
  simp only [PrivateMessage.decrypt_content, hg, hc, decrypt_encrypt]

theorem decrypt_sender_of (m : PrivateMessage) (kp : Keypair) (p : PubBytes) (k : Nat)
    (sender : List Nat) (hg : generate_shared_secret kp p = .ok k)
    (hs : m.encrypted_sender = encrypt sender k) :
    m.decrypt_sender kp p = .ok sender := by
  simp only [PrivateMessage.decrypt_sender, hg, hs, decrypt_encrypt]

theorem verify_roundtrip (m : PrivateMessage) (da : Nat) (content : List Nat)
    (hsig : m.signature_bytes =
      mkSig da (blake3Digest (content ++ pubkeyBytes (.point da) ++ beBytes8 m.timestamp))) :
    m.verify_signature content (pubkeyString (.point da)) = .ok true := by
  simp only [PrivateMessage.verify_signature, pubkeyString, pubkeyBytes, tryFromPubkeyString]
  rw [hsig]
  simp [mkSig_length, sigVerify, pubkeyBytes]

/-! ## Claim theorems over the crypto and envelope layers -/

/-- C1: constructing an envelope with `PrivateMessage::new(A, B.public, s)`
and then, as B using A's public key, decrypting content and sender and
verifying the signature, yields the original plaintext, A's public-key
string, and a successful verification. -/
theorem c1_envelope_round_trip (sa sb s : List Nat) (t : Nat) :
    ∃ m : PrivateMessage,
      PrivateMessage.new ⟨sa⟩ (Keypair.public_key ⟨sb⟩) s t = .ok m ∧
      m.decrypt_content ⟨sb⟩ (Keypair.public_key ⟨sa⟩) = .ok s ∧
      m.decrypt_sender ⟨sb⟩ (Keypair.public_key ⟨sa⟩) =
        .ok (pubkeyString (Keypair.public_key ⟨sa⟩)) ∧
      m.verify_signature s (pubkeyString (Keypair.public_key ⟨sa⟩)) = .ok true := by
  have hBA : generate_shared_secret ⟨sb⟩ (Keypair.public_key ⟨sa⟩) =
      .ok (canonMont (Keypair.scalar ⟨sa⟩ * canonMont (Keypair.scalar ⟨sb⟩ % L))) := by
    rw [← generate_shared_secret_comm ⟨sa⟩ ⟨sb⟩]
    rfl
  refine ⟨_, new_ok ⟨sa⟩ (Keypair.scalar ⟨sb⟩ % L) s t, ?_, ?_, ?_⟩
  · exact decrypt_content_of _ _ _ _ _ hBA rfl
  · exact decrypt_sender_of _ _ _ _ _ hBA rfl
  · exact verify_roundtrip _ (Keypair.scalar ⟨sa⟩ % L) s rfl

/-- C2: the shared secret is symmetric: `generate_shared_secret(A, B.public)`
equals `generate_shared_secret(B, A.public)` for all signing keypairs. -/
theorem c2_shared_secret_symmetric (sa sb : List Nat) :
    generate_shared_secret ⟨sa⟩ (Keypair.public_key ⟨sb⟩) =
      generate_shared_secret ⟨sb⟩ (Keypair.public_key ⟨sa⟩) :=
  generate_shared_secret_comm ⟨sa⟩ ⟨sb⟩

/-- C3: the conversation path is symmetric in the two parties, and it is
the fixed template: the private-messages namespace segment, the hex
digest of the hashed shared secret, and a trailing separator. -/
theorem c3_conversation_path_symmetric (sa sb : List Nat) :
    generate_conversation_path ⟨sa⟩ (Keypair.public_key ⟨sb⟩) =
      generate_conversation_path ⟨sb⟩ (Keypair.public_key ⟨sa⟩) ∧
    ∃ shared, generate_shared_secret ⟨sa⟩ (Keypair.public_key ⟨sb⟩) = .ok shared ∧
      generate_conversation_path ⟨sa⟩ (Keypair.public_key ⟨sb⟩) =
        .ok ("/pub/private_messages/" ++ blake3Hex shared ++ "/") := by
  constructor
  · simp only [generate_conversation_path, generate_shared_secret_comm ⟨sa⟩ ⟨sb⟩]
  · exact ⟨_, rfl, rfl⟩

/-- C7 reference definition, modelled from the spec's words (§4.1
`secretToDH`): hash the 32-byte signing secret with a 512-bit hash, take
the low 32 bytes, clear bits 0, 1 and 2 of the first byte (dropping the
remainder modulo 8), clear bit 7 of the last byte (reducing modulo 128)
and set its bit 6. -/
def secretToDHSpec (signing_secret : List Nat) : List Nat :=
  let low := (sha512Model signing_secret).take 32
  let first := low.getD 0 0
  let last := low.getD 31 0
  let lastClamped := if last % 128 < 64 then last % 128 + 64 else last % 128
  (low.set 0 (first - first % 8)).set 31 lastClamped

set_option maxRecDepth 4096 in
theorem land_248_eq : ∀ b < 256, b &&& 248 = b - b % 8 := by decide

set_option maxRecDepth 4096 in
theorem land_127_lor_64_eq : ∀ b < 256,
    (b &&& 127) ||| 64 = if b % 128 < 64 then b % 128 + 64 else b % 128 := by decide

theorem sha512Model_lt (l : List Nat) : ∀ b ∈ sha512Model l, b < 256 := by
  intro b hb
  have hb' := List.mem_of_mem_take hb
  rcases List.mem_append.mp hb' with h | h
  · obtain ⟨x, -, rfl⟩ := List.mem_map.mp h
    exact Nat.mod_lt _ (by omega)
  · have := List.eq_of_mem_replicate h
    omega

theorem getD_lt_256 {l : List Nat} (h : ∀ b ∈ l, b < 256) (i : Nat) : l.getD i 0 < 256 := by
  rcases Nat.lt_or_ge i l.length with hi | hi
  · rw [List.getD_eq_getElem?_getD, List.getElem?_eq_getElem hi]
    exact h _ (List.getElem_mem hi)
  · rw [List.getD_eq_default _ _ hi]
    omega

/-- C7: `ed25519_secret_to_x25519` equals the spec's reference definition
(SHA-512, low 32 bytes, standard scalar clamping), and is total: it
always produces a 32-byte scalar, for every input. -/
theorem c7_secret_to_x25519_spec (ed_secret : List Nat) :
    ed25519_secret_to_x25519 ed_secret = secretToDHSpec ed_secret ∧
    (ed25519_secret_to_x25519 ed_secret).length = 32 := by
  have hlen : ((sha512Model ed_secret).take 32).length = 32 := by
    simp [sha512Model, List.length_take]
  have hbytes : ∀ b ∈ (sha512Model ed_secret).take 32, b < 256 := by
    intro b hb
    exact sha512Model_lt ed_secret b (List.mem_of_mem_take hb)
  constructor
  · simp only [ed25519_secret_to_x25519, secretToDHSpec]
    have h31 : (((sha512Model ed_secret).take 32).set 0
        (((sha512Model ed_secret).take 32).getD 0 0 &&& 248)).getD 31 0 =
        ((sha512Model ed_secret).take 32).getD 31 0 := by
      simp [List.getD_eq_getElem?_getD, List.getElem?_set_ne]
    rw [h31, land_248_eq _ (getD_lt_256 hbytes 0), land_127_lor_64_eq _ (getD_lt_256 hbytes 31)]
  · simp [ed25519_secret_to_x25519, sha512Model, List.length_take]

/-- C8: a peer public key whose 32 bytes do not decompress to a curve
point makes `ed25519_public_to_x25519` return no value, and
`generate_shared_secret` turns that into a recoverable error; on bytes
that do decompress, both succeed. -/
theorem c8_invalid_point_recoverable (sa : List Nat) (n d : Nat) :
    ed25519_public_to_x25519 (.junk n) = none ∧
    generate_shared_secret ⟨sa⟩ (.junk n) = .error "Failed to convert pubkey to X25519" ∧
    ed25519_public_to_x25519 (.point d) = some (canonMont d) ∧
    ∃ s, generate_shared_secret ⟨sa⟩ (.point d) = .ok s :=
  ⟨rfl, rfl, rfl, _, rfl⟩

/-! ## client.rs, translated from the source -/

/-- The caller-visible verification flag of a fetched message:
`verify_signature(&content, &sender).unwrap_or(false)` in
`get_messages`. -/
def verifyFlag (m : PrivateMessage) (content sender : List Nat) : Bool :=
  match m.verify_signature content sender with
  | .ok b => b
  | .error _ => false

/-- The per-object pipeline of `get_messages`: decrypt content, decrypt
sender (either failure skips the object), then record the verification
flag. -/
def extractItem (kp : Keypair) (other : PubBytes) (msg : PrivateMessage) :
    Option DecryptedMessage :=
  match msg.decrypt_content kp other with
  | .error _ => none
  | .ok content =>
    match msg.decrypt_sender kp other with
    | .error _ => none
    | .ok sender => some ⟨sender, content, msg.timestamp, verifyFlag msg content sender⟩

/-- The outcome of one `client.get(url)` in the `get_messages` loop: a
transport-level failure (propagated by the `?` operator), a non-success
HTTP status (the object is skipped), or a readable body.  JSON parsing
is external, so the body is carried as `Option PrivateMessage` with
`none` modelling a body `serde_json` rejects; a body-read failure
behaves like `fetchErr`. -/
inductive GetResult where
  | fetchErr (e : String)
  | failStatus
  | success (body : Option PrivateMessage)
deriving DecidableEq, Repr

/-- Translated from client.rs `get_messages`, the loop over the listed
urls: a transport error aborts the whole call, a non-success status or
unparsable or undecryptable object is skipped, and each decryptable
object is accumulated in listing order. -/
def processUrls (kp : Keypair) (other : PubBytes) :
    List GetResult → Except String (List DecryptedMessage)
  | [] => .ok []
  | .fetchErr e :: _ => .error e
  | .failStatus :: rest => processUrls kp other rest
  | .success none :: rest => processUrls kp other rest
  | .success (some msg) :: rest =>
    match extractItem kp other msg with
    | none => processUrls kp other rest
    | some dm => (processUrls kp other rest).map (fun l => dm :: l)

/-- Translated from client.rs `get_messages`: process every listed object
and sort the accumulated messages by timestamp ascending;
`slice::sort_by` is a stable sort, modelled by `List.mergeSort`.  The
url listing is the input list (a failed `list` call contributes no
urls). -/
def get_messages (kp : Keypair) (other : PubBytes) (items : List GetResult) :
    Except String (List DecryptedMessage) :=
  (processUrls kp other items).map
    (fun l => l.mergeSort (fun a b => decide (a.timestamp ≤ b.timestamp)))

/-- An object the `get_messages` loop skips rather than aborts on: a
non-success status, an unparsable body, or an envelope that fails to
decrypt. -/
def skippableItem (kp : Keypair) (other : PubBytes) : GetResult → Prop
  | .fetchErr _ => False
  | .failStatus => True
  | .success none => True
  | .success (some m) => extractItem kp other m = none

theorem processUrls_skip (kp : Keypair) (other : PubBytes) (pre post : List GetResult)
    (bad : GetResult) (h : skippableItem kp other bad) :
    processUrls kp other (pre ++ bad :: post) = processUrls kp other (pre ++ post) := by
  induction pre with
  | nil =>
    cases bad with
    | fetchErr e => exact absurd h (by simp [skippableItem])
    | failStatus => rfl
    | success body =>
      cases body with
      | none => rfl
      | some m =>
        have hm : extractItem kp other m = none := h
        simp only [List.nil_append, processUrls, hm]
  | cons g pre ih =>
    cases g with
    | fetchErr e => rfl
    | failStatus => exact ih
    | success body =>
      cases body with
      | none => exact ih
      | some m =>
        cases hx : extractItem kp other m with
        | none => simp only [List.cons_append, processUrls, hx]; exact ih
        | some dm =>
          simp only [List.cons_append, processUrls, hx]
          exact congrArg _ ih

theorem processUrls_ok_of_no_fetchErr (kp : Keypair) (other : PubBytes)
    (items : List GetResult) (h : ∀ e, GetResult.fetchErr e ∉ items) :
    ∃ l, processUrls kp other items = .ok l := by
  induction items with
  | nil => exact ⟨[], rfl⟩
  | cons g rest ih =>
    obtain ⟨l, hl⟩ := ih (fun e he => h e (List.mem_cons_of_mem _ he))
    cases g with
    | fetchErr e => exact absurd (List.mem_cons_self _ _) (h e)
    | failStatus => exact ⟨l, hl⟩
    | success body =>
      cases body with
      | none => exact ⟨l, hl⟩
      | some m =>
        cases hx : extractItem kp other m with
        | none => exact ⟨l, by simp only [processUrls, hx]; exact hl⟩
        | some dm => exact ⟨dm :: l, by simp only [processUrls, hx, hl, Except.map]⟩

/-- Concrete keypair used in counterexamples and witnesses. -/
def cxKeyA : Keypair := ⟨[1]⟩

/-- Concrete peer keypair used in counterexamples and witnesses. -/
def cxKeyB : Keypair := ⟨[2]⟩

instance : Inhabited DecryptedMessage := ⟨⟨[], [], 0, false⟩⟩

/-- A concrete honestly-constructed envelope from `cxKeyA` to `cxKeyB`
with content bytes `[72, 105]` and timestamp 5. -/
def cxMsg : PrivateMessage :=
  (PrivateMessage.new cxKeyA cxKeyB.public_key [72, 105] 5).toOption.getD default

/-- C4 as stated is false on the code: a transport-level fetch failure is
propagated by the `?` operator and aborts `get_messages`, so a store
holding one valid decryptable envelope plus one object whose fetch
fails returns an error, not the one valid message. -/
theorem c4_counterexample :
    (∃ dm, extractItem cxKeyA cxKeyB.public_key cxMsg = some dm) ∧
    get_messages cxKeyA cxKeyB.public_key
      [GetResult.success (some cxMsg), GetResult.fetchErr "io error"] = .error "io error" :=
  ⟨⟨_, rfl⟩, rfl⟩

theorem processUrls_all_valid (kp : Keypair) (other : PubBytes)
    (msgs : List PrivateMessage) (dms : List DecryptedMessage)
    (h : List.Forall₂ (fun m dm => extractItem kp other m = some dm) msgs dms) :
    processUrls kp other (msgs.map (fun m => GetResult.success (some m))) = .ok dms := by
  induction h with
  | nil => rfl
  | cons hmd _ ih => simp only [List.map, processUrls, hmd, ih, Except.map]

/-- C4 amended: an object with a non-success status, an unparsable body,
or an undecryptable envelope is skipped — removing it from the store
leaves the result unchanged — a store with no transport-level fetch
failure never yields an error, and a store of N valid decryptable
envelopes yields exactly their N decryptions; a transport-level fetch
failure, however, aborts the call with an error. -/
theorem c4_corruption_tolerance :
    (∀ (kp : Keypair) (other : PubBytes) (pre post : List GetResult) (bad : GetResult),
      skippableItem kp other bad →
      get_messages kp other (pre ++ bad :: post) = get_messages kp other (pre ++ post)) ∧
    (∀ (kp : Keypair) (other : PubBytes) (items : List GetResult),
      (∀ e, GetResult.fetchErr e ∉ items) → ∃ l, get_messages kp other items = .ok l) ∧
    (∀ (kp : Keypair) (other : PubBytes) (msgs : List PrivateMessage)
      (dms : List DecryptedMessage),
      List.Forall₂ (fun m dm => extractItem kp other m = some dm) msgs dms →
      ∃ l, get_messages kp other (msgs.map (fun m => GetResult.success (some m))) = .ok l ∧
        List.Perm l dms) := by
  refine ⟨?_, ?_, ?_⟩
  · intro kp other pre post bad h
    simp only [get_messages, processUrls_skip kp other pre post bad h]
  · intro kp other items h
    obtain ⟨l, hl⟩ := processUrls_ok_of_no_fetchErr kp other items h
    exact ⟨_, by rw [get_messages, hl]; rfl⟩
  · intro kp other msgs dms h
    refine ⟨_, by rw [get_messages, processUrls_all_valid kp other msgs dms h]; rfl, ?_⟩
    exact List.mergeSort_perm dms _

/-- The decryption of the concrete honest envelope, for the C4 witness. -/
def cxDm : DecryptedMessage :=
  (extractItem cxKeyA cxKeyB.public_key cxMsg).getD default

/-- C4 witness: the amended theorem applied at a concrete skippable
object, a concrete error-free store, and a concrete all-valid store. -/
theorem c4_witness :
    get_messages cxKeyA cxKeyB.public_key ([] ++ GetResult.failStatus :: []) =
      get_messages cxKeyA cxKeyB.public_key ([] ++ []) ∧
    (∃ l, get_messages cxKeyA cxKeyB.public_key [GetResult.success (some cxMsg)] = .ok l) ∧
    ∃ l, get_messages cxKeyA cxKeyB.public_key
        ([cxMsg].map (fun m => GetResult.success (some m))) = .ok l ∧
      List.Perm l [cxDm] :=
  ⟨c4_corruption_tolerance.1 cxKeyA cxKeyB.public_key [] [] GetResult.failStatus trivial,
    c4_corruption_tolerance.2.1 cxKeyA cxKeyB.public_key
      [GetResult.success (some cxMsg)] (by simp),
    c4_corruption_tolerance.2.2 cxKeyA cxKeyB.public_key [cxMsg] [cxDm]
      (List.Forall₂.cons rfl List.Forall₂.nil)⟩

/-- C9: whenever `get_messages` succeeds, the returned list is the
accumulated list sorted ascending by timestamp, as a stable sort: it is
sorted, it is a permutation of the accumulated list, and the messages
with any fixed timestamp appear in their accumulation order. -/
theorem c9_sorted_by_timestamp (kp : Keypair) (other : PubBytes) (items : List GetResult)
    (l acc : List DecryptedMessage) (hp : processUrls kp other items = .ok acc)
    (hg : get_messages kp other items = .ok l) :
    l.Pairwise (fun a b => a.timestamp ≤ b.timestamp) ∧ List.Perm l acc ∧
    ∀ t, l.filter (fun d => d.timestamp == t) = acc.filter (fun d => d.timestamp == t) := by
  have hl : l = acc.mergeSort (fun a b => decide (a.timestamp ≤ b.timestamp)) := by
    rw [get_messages, hp] at hg
    simpa [Except.map] using hg.symm
  have trans : ∀ a b c : DecryptedMessage,
      decide (a.timestamp ≤ b.timestamp) → decide (b.timestamp ≤ c.timestamp) →
      decide (a.timestamp ≤ c.timestamp) := by
    intro a b c hab hbc
    simp only [decide_eq_true_eq] at hab hbc ⊢
    omega
  have total : ∀ a b : DecryptedMessage,
      decide (a.timestamp ≤ b.timestamp) || decide (b.timestamp ≤ a.timestamp) := by
    intro a b
    simp only [Bool.or_eq_true, decide_eq_true_eq]
    omega
  subst hl
  refine ⟨?_, List.mergeSort_perm acc _, ?_⟩
  · exact (List.sorted_mergeSort trans total acc).imp (fun h => by simpa using h)
  · intro t
    have hpair : (acc.filter (fun d => d.timestamp == t)).Pairwise
        (fun a b => decide (a.timestamp ≤ b.timestamp) = true) := by
      apply List.pairwise_of_forall_mem_list
      intro a ha b hb
      have ha' := (List.mem_filter.mp ha).2
      have hb' := (List.mem_filter.mp hb).2
      simp only [beq_iff_eq] at ha' hb'
      simp [ha', hb']
    have hsub : List.Sublist (acc.filter (fun d => d.timestamp == t))
        (acc.mergeSort (fun a b => decide (a.timestamp ≤ b.timestamp))) :=
      List.sublist_mergeSort trans total hpair (List.filter_sublist acc)
    have hsub2 := hsub.filter (fun d => d.timestamp == t)
    rw [List.filter_filter] at hsub2
    have hself : (acc.filter fun d => (d.timestamp == t) && (d.timestamp == t)) =
        acc.filter (fun d => d.timestamp == t) := by
      simp [Bool.and_self]
    rw [hself] at hsub2
    have hperm := (List.mergeSort_perm acc (fun a b => decide (a.timestamp ≤ b.timestamp))).filter
      (fun d => d.timestamp == t)
    exact (hsub2.eq_of_length hperm.length_eq.symm).symm

/-- A concrete honest envelope from `cxKeyA` to `cxKeyB` with the given
content and timestamp, for the C9 witness store. -/
def wMsg (c : List Nat) (t : Nat) : PrivateMessage :=
  (PrivateMessage.new cxKeyA cxKeyB.public_key c t).toOption.getD default

/-- A concrete store holding three honest envelopes with timestamps 3, 1,
2 in that storage order. -/
def c9Items : List GetResult :=
  [.success (some (wMsg [3] 3)), .success (some (wMsg [1] 1)), .success (some (wMsg [2] 2))]

/-- The accumulated (unsorted) decryption of `c9Items` as read by B. -/
def c9Acc : List DecryptedMessage :=
  (processUrls cxKeyB cxKeyA.public_key c9Items).toOption.getD []

/-- The sorted result of `get_messages` over `c9Items` as read by B. -/
def c9Res : List DecryptedMessage :=
  (get_messages cxKeyB cxKeyA.public_key c9Items).toOption.getD []

/-- C9 witness: the sortedness theorem applied to the concrete
three-message store with timestamps 3, 1, 2. -/
theorem c9_witness :
    c9Res.Pairwise (fun a b => a.timestamp ≤ b.timestamp) ∧ List.Perm c9Res c9Acc ∧
    ∀ t, c9Res.filter (fun d => d.timestamp == t) =
      c9Acc.filter (fun d => d.timestamp == t) :=
  c9_sorted_by_timestamp cxKeyB cxKeyA.public_key c9Items c9Res c9Acc rfl rfl

/-! ## client.rs delete operations, translated from the source -/

/-- The backend's answer to one delete request: a transport-level error
(the `?` operator propagates it) or an HTTP status code. -/
inductive DelResult where
  | err (e : String)
  | status (code : Nat)
deriving DecidableEq, Repr

/-- Whether an HTTP status code counts as success
(`response.status().is_success()`). -/
def isSuccessStatus (c : Nat) : Bool := decide (200 ≤ c ∧ c < 300)

/-- Translated from client.rs `delete_messages`, the scan over the joined
results: the first transport error or non-success status fails the
whole call, naming the failing id.  No retry is performed. -/
def scanDeletes : List (String × DelResult) → Except String Unit
  | [] => .ok ()
  | (id, .err e) :: _ => .error ("Failed to delete message " ++ id ++ ": " ++ e)
  | (id, .status c) :: rest =>
    if isSuccessStatus c then scanDeletes rest
    else .error ("Failed to delete message " ++ id ++ ": " ++ toString c)

/-- Translated from client.rs `delete_messages`: issue one delete per id
(`resp id 0` is the backend outcome for the single attempt made on each
id) and scan the joined results for the first failure. -/
def delete_messages (message_ids : List String) (resp : String → Nat → DelResult) :
    Except String Unit :=
  scanDeletes (message_ids.map (fun id => (id, resp id 0)))

/-- The fixed-size batching of `clear_messages` (`urls.chunks(5)`). -/
def chunks5 : List String → List (List String)
  | [] => []
  | [a] => [[a]]
  | [a, b] => [[a, b]]
  | [a, b, c] => [[a, b, c]]
  | [a, b, c, d] => [[a, b, c, d]]
  | a :: b :: c :: d :: e :: rest => [a, b, c, d, e] :: chunks5 rest

/-- Translated from client.rs `clear_messages`, the scan over one batch's
joined results: `resp u 0` is the first attempt on url `u` and
`resp u 1` the retry.  A non-success status of 429 sleeps 1000 ms and
retries that single delete once, failing only if the retry fails; any
other failure is immediate.  The second component is the trace of
sleeps in milliseconds. -/
def batchScan (resp : String → Nat → DelResult) :
    List String → Except String Unit × List Nat
  | [] => (.ok (), [])
  | u :: rest =>
    match resp u 0 with
    | .err e => (.error ("Failed to delete message at " ++ u ++ ": " ++ e), [])
    | .status c =>
      if isSuccessStatus c then batchScan resp rest
      else if c = 429 then
        match resp u 1 with
        | .err e => (.error ("Failed to delete message at " ++ u ++ ": " ++ e), [1000])
        | .status c2 =>
          if isSuccessStatus c2 then
            ((batchScan resp rest).1, 1000 :: (batchScan resp rest).2)
          else
            (.error ("Failed to delete message at " ++ u ++ " after retry: " ++ toString c2),
              [1000])
      else (.error ("Failed to delete message at " ++ u ++ ": " ++ toString c), [])

/-- Translated from client.rs `clear_messages`, the loop over batches: a
200 ms pause follows every full batch of 5. -/
def runBatches (resp : String → Nat → DelResult) :
    List (List String) → Except String Unit × List Nat
  | [] => (.ok (), [])
  | chunk :: rest =>
    match batchScan resp chunk with
    | (.error e, tr) => (.error e, tr)
    | (.ok _, tr) =>
      ((runBatches resp rest).1,
        tr ++ (if chunk.length = 5 then [200] else []) ++ (runBatches resp rest).2)

/-- Translated from client.rs `clear_messages`: the listed urls of the
caller's own conversation namespace are the input (a failed listing
contributes the empty list and the call succeeds as a no-op); an empty
listing returns success early; otherwise delete in batches of 5. -/
def clear_messages (resp : String → Nat → DelResult) (urls : List String) :
    Except String Unit × List Nat :=
  if urls.isEmpty then (.ok (), []) else runBatches resp (chunks5 urls)

/-- A backend that rate-limits the first attempt on every url and
succeeds on the retry. -/
def resp429Once : String → Nat → DelResult :=
  fun _ attempt => if attempt = 0 then .status 429 else .status 200

/-- A backend that rate-limits every attempt. -/
def resp429Always : String → Nat → DelResult := fun _ _ => .status 429

/-- C5 as stated is false on the code: `delete_messages` performs no
retry.  Against a backend whose first attempt answers 429 and whose
retry would succeed, `delete_messages` fails immediately (while
`clear_messages` on the same backend retries and succeeds). -/
theorem c5_counterexample :
    resp429Once "m1" 1 = .status 200 ∧
    delete_messages ["m1"] resp429Once = .error "Failed to delete message m1: 429" ∧
    clear_messages resp429Once ["m1"] = (.ok (), [1000]) :=
  ⟨rfl, rfl, rfl⟩

/-- The first attempt on url `u` answers a success status. -/
def firstOk (resp : String → Nat → DelResult) (u : String) : Prop :=
  ∃ c, resp u 0 = DelResult.status c ∧ isSuccessStatus c = true

/-- The retry attempt on url `u` answers a success status. -/
def retryOk (resp : String → Nat → DelResult) (u : String) : Prop :=
  ∃ c2, resp u 1 = DelResult.status c2 ∧ isSuccessStatus c2 = true

/-- A batch member `clear_messages` gets past: either its first attempt
succeeds, or the first attempt is rate-limited (429) and the single
retry succeeds. -/
def memberOk (resp : String → Nat → DelResult) (u : String) : Prop :=
  firstOk resp u ∨ (resp u 0 = DelResult.status 429 ∧ retryOk resp u)

theorem isSuccessStatus_429 : isSuccessStatus 429 = false := by decide

theorem batchScan_ok_iff (resp : String → Nat → DelResult) (chunk : List String) :
    (batchScan resp chunk).1 = .ok () ↔ ∀ u ∈ chunk, memberOk resp u := by
  induction chunk with
  | nil => simp [batchScan]
  | cons u rest ih =>
    cases hr0 : resp u 0 with
    | err e =>
      simp only [batchScan, hr0]
      constructor
      · intro h
        exact absurd h (by simp)
      · intro h
        rcases h u (List.mem_cons_self _ _) with ⟨c, hc, -⟩ | ⟨hc, -⟩ <;>
          rw [hr0] at hc <;> exact absurd hc (by simp)
    | status c =>
      cases hsc : isSuccessStatus c with
      | true =>
        simp only [batchScan, hr0, hsc, if_true, if_false]
        rw [ih]
        constructor
        · intro h v hv
          rcases List.mem_cons.mp hv with rfl | hv
          · exact Or.inl ⟨c, hr0, hsc⟩
          · exact h v hv
        · intro h v hv
          exact h v (List.mem_cons_of_mem _ hv)
      | false =>
        by_cases h429 : c = 429
        · subst h429
          cases hr1 : resp u 1 with
          | err e =>
            simp only [batchScan, hr0, hsc, hr1, if_true, if_false]
            constructor
            · intro h
              exact absurd h (by simp)
            · intro h
              rcases h u (List.mem_cons_self _ _) with ⟨c', hc', hs'⟩ | ⟨-, c2, hc2, -⟩
              · rw [hr0] at hc'
                cases hc'
                rw [hsc] at hs'
                exact absurd hs' (by simp)
              · rw [hr1] at hc2
                exact absurd hc2 (by simp)
          | status c2 =>
            cases hs2 : isSuccessStatus c2 with
            | true =>
              simp only [batchScan, hr0, hsc, hr1, hs2, Bool.false_eq_true, if_true,
                if_false]
              rw [ih]
              constructor
              · intro h v hv
                rcases List.mem_cons.mp hv with rfl | hv
                · exact Or.inr ⟨hr0, c2, hr1, hs2⟩
                · exact h v hv
              · intro h v hv
                exact h v (List.mem_cons_of_mem _ hv)
            | false =>
              simp only [batchScan, hr0, hsc, hr1, hs2, if_true, if_false]
              constructor
              · intro h
                exact absurd h (by simp)
              · intro h
                rcases h u (List.mem_cons_self _ _) with ⟨c', hc', hs'⟩ | ⟨-, c2', hc2', hs2'⟩
                · rw [hr0] at hc'
                  cases hc'
                  rw [hsc] at hs'
                  exact absurd hs' (by simp)
                · rw [hr1] at hc2'
                  cases hc2'
                  rw [hs2] at hs2'
                  exact absurd hs2' (by simp)
        · simp only [batchScan, hr0, hsc, if_true, if_false]
          rw [if_neg h429]
          constructor
          · intro h
            exact absurd h (by simp)
          · intro h
            rcases h u (List.mem_cons_self _ _) with ⟨c', hc', hs'⟩ | ⟨hc', -⟩
            · rw [hr0] at hc'
              cases hc'
              rw [hsc] at hs'
              exact absurd hs' (by simp)
            · rw [hr0] at hc'
              exact absurd hc' (by simp [h429])

theorem batchScan_count (resp : String → Nat → DelResult) (chunk : List String)
    (h : ∀ u ∈ chunk, memberOk resp u) :
    (batchScan resp chunk).2.count 1000 =
      (chunk.filter (fun u => decide (resp u 0 = DelResult.status 429))).length := by
  induction chunk with
  | nil => simp [batchScan]
  | cons u rest ih =>
    have hrest := fun v hv => h v (List.mem_cons_of_mem _ hv)
    rcases h u (List.mem_cons_self _ _) with ⟨c, hc, hsc⟩ | ⟨hc, c2, hc2, hs2⟩
    · have hne : c ≠ 429 := by
        intro h429
        rw [h429, isSuccessStatus_429] at hsc
        exact absurd hsc (by simp)
      simp only [batchScan, hc, hsc, List.filter_cons, if_true, if_false]
      rw [if_neg (by simp [hne])]
      exact ih hrest
    · simp only [batchScan, hc, isSuccessStatus_429, hc2, hs2, List.filter_cons,
        Bool.false_eq_true, if_true, if_false]
      rw [if_pos (by simp)]
      simp only [List.count_cons, List.length_cons]
      rw [ih hrest]
      simp

theorem runBatches_ok_iff (resp : String → Nat → DelResult) (chunks : List (List String)) :
    (runBatches resp chunks).1 = .ok () ↔
      ∀ chunk ∈ chunks, (batchScan resp chunk).1 = .ok () := by
  induction chunks with
  | nil => simp [runBatches]
  | cons chunk rest ih =>
    rcases hbs : batchScan resp chunk with ⟨r, tr⟩
    cases r with
    | error e =>
      simp only [runBatches, hbs]
      constructor
      · intro h
        exact absurd h (by simp)
      · intro h
        have := h chunk (List.mem_cons_self _ _)
        rw [hbs] at this
        exact absurd this (by simp)
    | ok v =>
      simp only [runBatches, hbs]
      rw [ih]
      constructor
      · intro h c hc
        rcases List.mem_cons.mp hc with rfl | hc
        · rw [hbs]
        · exact h c hc
      · intro h c hc
        exact h c (List.mem_cons_of_mem _ hc)

theorem runBatches_count (resp : String → Nat → DelResult) (chunks : List (List String))
    (h : ∀ chunk ∈ chunks, (batchScan resp chunk).1 = .ok ()) :
    (runBatches resp chunks).2.count 1000 =
      (chunks.map (fun chunk => (batchScan resp chunk).2.count 1000)).sum := by
  induction chunks with
  | nil => simp [runBatches]
  | cons chunk rest ih =>
    rcases hbs : batchScan resp chunk with ⟨r, tr⟩
    have hr : r = .ok () := by
      have := h chunk (List.mem_cons_self _ _)
      rw [hbs] at this
      exact this
    subst hr
    simp only [runBatches, hbs, List.map_cons, List.sum_cons, List.count_append]
    rw [ih (fun c hc => h c (List.mem_cons_of_mem _ hc))]
    have hpause : (if chunk.length = 5 then [200] else ([] : List Nat)).count 1000 = 0 := by
      split <;> simp
    omega

theorem chunks5_flatten : ∀ l : List String, (chunks5 l).flatten = l := by
  intro l
  induction l using chunks5.induct <;> simp_all [chunks5]

theorem filter_flatten (L : List (List String)) (p : String → Bool) :
    (L.flatten).filter p = (L.map (fun l => l.filter p)).flatten := by
  induction L with
  | nil => rfl
  | cons l L ih => simp [List.filter_append, ih]

theorem clear_messages_ok_iff (resp : String → Nat → DelResult) (urls : List String) :
    (clear_messages resp urls).1 = .ok () ↔ ∀ u ∈ urls, memberOk resp u := by
  unfold clear_messages
  cases urls with
  | nil => simp
  | cons a rest =>
    rw [if_neg (by simp), runBatches_ok_iff]
    constructor
    · intro h u hu
      have hu' : u ∈ (chunks5 (a :: rest)).flatten := by
        rw [chunks5_flatten]
        exact hu
      obtain ⟨chunk, hchunk, huc⟩ := List.mem_flatten.mp hu'
      exact (batchScan_ok_iff resp chunk).mp (h chunk hchunk) u huc
    · intro h chunk hchunk
      refine (batchScan_ok_iff resp chunk).mpr ?_
      intro u huc
      refine h u ?_
      rw [← chunks5_flatten (a :: rest)]
      exact List.mem_flatten.mpr ⟨chunk, hchunk, huc⟩

theorem clear_messages_count (resp : String → Nat → DelResult) (urls : List String)
    (h : ∀ u ∈ urls, memberOk resp u) :
    (clear_messages resp urls).2.count 1000 =
      (urls.filter (fun u => decide (resp u 0 = DelResult.status 429))).length := by
  unfold clear_messages
  cases urls with
  | nil => simp
  | cons a rest =>
    rw [if_neg (by simp)]
    have hall : ∀ chunk ∈ chunks5 (a :: rest), (batchScan resp chunk).1 = .ok () := by
      intro chunk hchunk
      refine (batchScan_ok_iff resp chunk).mpr ?_
      intro u huc
      refine h u ?_
      rw [← chunks5_flatten (a :: rest)]
      exact List.mem_flatten.mpr ⟨chunk, hchunk, huc⟩
    rw [runBatches_count resp _ hall]
    have hcnt : ∀ chunk ∈ chunks5 (a :: rest),
        (batchScan resp chunk).2.count 1000 =
          (chunk.filter (fun u => decide (resp u 0 = DelResult.status 429))).length := by
      intro chunk hchunk
      refine batchScan_count resp chunk ?_
      intro u huc
      refine h u ?_
      rw [← chunks5_flatten (a :: rest)]
      exact List.mem_flatten.mpr ⟨chunk, hchunk, huc⟩
    rw [List.map_congr_left hcnt]
    conv_rhs => rw [← chunks5_flatten (a :: rest)]
    rw [filter_flatten, List.length_flatten, List.map_map]
    rfl

/-- C5 amended: in `clear_messages`, over every store and backend, a
delete sub-operation whose first attempt answers status 429 is retried
exactly once after the fixed 1000 ms backoff — the run succeeds
whenever every rate-limited member's retry succeeds, its sleep trace
holds exactly one 1000 ms backoff per rate-limited member, and a
member whose retry fails makes the call error; `delete_messages`
performs no retry — the first id in the list whose single attempt
answers a non-success status, including 429, fails the call
immediately, naming that id. -/
theorem c5_rate_limit_retry :
    (∀ (resp : String → Nat → DelResult) (urls : List String),
      (∀ u ∈ urls, memberOk resp u) →
      (clear_messages resp urls).1 = .ok () ∧
      (clear_messages resp urls).2.count 1000 =
        (urls.filter (fun u => decide (resp u 0 = DelResult.status 429))).length) ∧
    (∀ (resp : String → Nat → DelResult) (urls : List String) (u : String),
      u ∈ urls → resp u 0 = DelResult.status 429 → ¬ retryOk resp u →
      (clear_messages resp urls).1 ≠ .ok ()) ∧
    (∀ (resp : String → Nat → DelResult) (pre post : List String) (id : String) (c : Nat),
      (∀ j ∈ pre, firstOk resp j) → resp id 0 = DelResult.status c →
      isSuccessStatus c = false →
      delete_messages (pre ++ id :: post) resp =
        .error ("Failed to delete message " ++ id ++ ": " ++ toString c)) := by
  refine ⟨?_, ?_, ?_⟩
  · intro resp urls h
    exact ⟨(clear_messages_ok_iff resp urls).mpr h, clear_messages_count resp urls h⟩
  · intro resp urls u hu h429 hretry hok
    rcases (clear_messages_ok_iff resp urls).mp hok u hu with ⟨c, hc, hsc⟩ | ⟨-, hr⟩
    · rw [h429] at hc
      cases hc
      rw [isSuccessStatus_429] at hsc
      exact absurd hsc (by simp)
    · exact hretry hr
  · intro resp pre post id c hpre hid hsc
    induction pre with
    | nil =>
      simp only [List.nil_append, delete_messages, List.map_cons, scanDeletes, hid]
      rw [if_neg (by simp [hsc])]
    | cons j pre ih =>
      obtain ⟨cj, hcj, hsj⟩ := hpre j (List.mem_cons_self _ _)
      simp only [List.cons_append, delete_messages, List.map_cons, scanDeletes, hcj,
        hsj, if_true]
      exact ih (fun j' hj' => hpre j' (List.mem_cons_of_mem _ hj'))

/-- A backend succeeding at once on `good`-prefixed urls and answering
429 to everything else, for the C5 witness. -/
def respMixed : String → Nat → DelResult :=
  fun u _ => if u = "good" then .status 200 else .status 429

/-- C5 witness: the amended theorem applied to a concrete two-url store
whose members are all rate-limited once, a concrete store whose member
never stops being rate-limited, and a concrete three-id delete list
whose second id fails with 429. -/
theorem c5_witness :
    ((clear_messages resp429Once ["u", "v"]).1 = .ok () ∧
      (clear_messages resp429Once ["u", "v"]).2.count 1000 =
        (["u", "v"].filter
          (fun u => decide (resp429Once u 0 = DelResult.status 429))).length) ∧
    (clear_messages resp429Always ["w"]).1 ≠ .ok () ∧
    delete_messages (["good"] ++ "bad" :: ["rest"]) respMixed =
      .error ("Failed to delete message " ++ "bad" ++ ": " ++ toString 429) :=
  ⟨c5_rate_limit_retry.1 resp429Once ["u", "v"]
      (fun _ _ => Or.inr ⟨rfl, 200, rfl, rfl⟩),
    c5_rate_limit_retry.2.1 resp429Always ["w"] "w" (List.mem_cons_self _ _) rfl
      (by rintro ⟨c2, hc2, hs2⟩; cases hc2; exact absurd hs2 (by decide)),
    c5_rate_limit_retry.2.2 respMixed ["good"] ["rest"] "bad" 429
      (fun j hj => by
        rcases List.mem_singleton.mp hj with rfl
        exact ⟨200, rfl, rfl⟩)
      rfl rfl⟩

/-- C6: when the decrypted sender parses as a public key and the
signature is 64 bytes, `verify_signature` returns a boolean — true
exactly when the signature matches the digest recomputed from the
content bytes, the sender's public-key bytes and the big-endian
timestamp, false on mismatch, never an error; a malformed sender string
is an error, which the `get_messages` caller treats as not verified. -/
theorem c6_verify_is_boolean :
    (∀ (m : PrivateMessage) (content sender : List Nat) (pk : PubBytes),
      tryFromPubkeyString sender = some pk → m.signature_bytes.length = 64 →
      m.verify_signature content sender =
        .ok (sigVerify pk
          (blake3Digest (content ++ pubkeyBytes pk ++ beBytes8 m.timestamp))
          m.signature_bytes)) ∧
    (∀ (d : Nat) (msg sig : List Nat),
      sigVerify (.point d) msg sig = true ↔ sig = mkSig d msg) ∧
    (∀ (m : PrivateMessage) (content sender : List Nat),
      tryFromPubkeyString sender = none →
      m.verify_signature content sender = .error "invalid public key" ∧
      verifyFlag m content sender = false) := by
  refine ⟨?_, ?_, ?_⟩
  · intro m content sender pk hpk hlen
    simp only [PrivateMessage.verify_signature, hpk, hlen]
    rfl
  · intro d msg sig
    simp [sigVerify]
  · intro m content sender hnone
    constructor
    · simp only [PrivateMessage.verify_signature, hnone]
    · simp only [verifyFlag, PrivateMessage.verify_signature, hnone]

/-- C6 witness: the theorem applied to the concrete honest envelope and
to a malformed sender string. -/
theorem c6_witness :
    cxMsg.verify_signature [72, 105] (pubkeyString cxKeyA.public_key) =
      .ok (sigVerify cxKeyA.public_key
        (blake3Digest ([72, 105] ++ pubkeyBytes cxKeyA.public_key ++ beBytes8 cxMsg.timestamp))
        cxMsg.signature_bytes) ∧
    (sigVerify (.point 3) [1] [2] = true ↔ [2] = mkSig 3 [1]) ∧
    (cxMsg.verify_signature [] [7] = .error "invalid public key" ∧
      verifyFlag cxMsg [] [7] = false) :=
  ⟨c6_verify_is_boolean.1 cxMsg [72, 105] (pubkeyString cxKeyA.public_key)
      cxKeyA.public_key rfl rfl,
    c6_verify_is_boolean.2.1 3 [1] [2],
    c6_verify_is_boolean.2.2 cxMsg [] [7] rfl⟩

/-- C10: a signature field that is not exactly 64 bytes makes
`verify_signature` return an error rather than `Ok(false)` (the model
is total, so it cannot panic), and every envelope produced by
`PrivateMessage::new` carries exactly 64 signature bytes, so the branch
is unreachable for honestly constructed envelopes. -/
theorem c10_signature_length_guard :
    (∀ (m : PrivateMessage) (content sender : List Nat),
      m.signature_bytes.length ≠ 64 → ∃ e, m.verify_signature content sender = .error e) ∧
    (∀ (kp : Keypair) (rp : PubBytes) (content : List Nat) (t : Nat) (m : PrivateMessage),
      PrivateMessage.new kp rp content t = .ok m → m.signature_bytes.length = 64) := by
  constructor
  · intro m content sender hlen
    cases hpk : tryFromPubkeyString sender with
    | none => exact ⟨"invalid public key", by simp only [PrivateMessage.verify_signature, hpk]⟩
    | some pk =>
      exact ⟨"Invalid signature length",
        by simp only [PrivateMessage.verify_signature, hpk, if_pos hlen]⟩
  · intro kp rp content t m hnew
    cases hg : generate_shared_secret kp rp with
    | error e =>
      simp only [PrivateMessage.new, hg] at hnew
      exact absurd hnew (by simp)
    | ok k =>
      simp only [PrivateMessage.new, hg, Except.ok.injEq] at hnew
      rw [← hnew]
      exact mkSig_length _ _

/-- C10 witness: the theorem applied to an envelope with an empty
signature field and to the concrete honest envelope. -/
theorem c10_witness :
    (∃ e, PrivateMessage.verify_signature ⟨0, [], [], []⟩ [] [7] = .error e) ∧
    cxMsg.signature_bytes.length = 64 :=
  ⟨c10_signature_length_guard.1 ⟨0, [], [], []⟩ [] [7] (by simp),
    c10_signature_length_guard.2 cxKeyA cxKeyB.public_key [72, 105] 5 cxMsg rfl⟩

end PubkyMessenger
